import Mathlib

/-!
Shallow embedding of the offline-first synchronization layer of the
CONSULTS_IN_PLASTIC_SURGERY application: the Dexie-based offline database
module (offline consult queue, cached server records, sync engine) and the
service-worker cache policy engine.

Timestamps are modelled as natural numbers (milliseconds since epoch); the
source stores ISO-8601 strings produced by `Date.toISOString()`, whose
lexicographic order coincides with chronological order, so comparisons on
`Nat` are a faithful rendering of the source's string comparisons.
-/

namespace PSConsult

/-- Lifecycle state of an offline submission (the `status` field:
`'pending' | 'synced' | 'failed'`). -/
inductive Status
  | pending
  | synced
  | failed
deriving DecidableEq, Repr

/-- A row of the `offlineConsults` table: auto-increment primary key `id`,
the generated `clientId`, the opaque payload `data` (the source also embeds
`client_id` inside the payload blob; that embedding plays no role here),
lifecycle `status`, creation timestamp `createdAt`, and failed-sync
`attempts` counter. -/
structure Entry where
  id : Nat
  clientId : String
  data : String
  status : Status
  createdAt : Nat
  attempts : Nat
deriving DecidableEq, Repr

/-- The `offlineConsults` table, kept in primary-key (insertion) order;
Dexie's auto-increment keys make primary-key order equal insertion order. -/
abbrev Store := List Entry

/-- `getPendingConsults`:
`db.offlineConsults.where('status').equals('pending').toArray()`.
An IndexedDB index enumerates equal-key rows in primary-key order, so the
result is the pending rows in insertion order. -/
def getPendingConsults (s : Store) : Store :=
  s.filter (fun e => decide (e.status = Status.pending))

/-- `markConsultSynced`: `db.offlineConsults.update(id, \x7b status: 'synced' \x7d)`;
updates the row with the given primary key, no-op when absent. -/
def markConsultSynced (i : Nat) (s : Store) : Store :=
  s.map (fun e => if e.id = i then { e with status := Status.synced } else e)

/-- `markConsultFailed`: reads the row; if present, sets `status: 'failed'`
and `attempts: (entry.attempts || 0) + 1`; no-op when absent. -/
def markConsultFailed (i : Nat) (s : Store) : Store :=
  s.map (fun e =>
    if e.id = i then { e with status := Status.failed, attempts := e.attempts + 1 } else e)

/-- The retention window used by `cleanupSyncedConsults`:
`7 * 24 * 60 * 60 * 1000` milliseconds. -/
def retentionMs : Nat := 7 * 24 * 60 * 60 * 1000

/-- `cleanupSyncedConsults`: deletes every row with `status == 'synced'`
whose `createdAt` is strictly older than `now` minus seven days. -/
def cleanupSyncedConsults (now : Nat) (s : Store) : Store :=
  let cutoff := now - retentionMs
  s.filter (fun e => !(decide (e.status = Status.synced) && decide (e.createdAt < cutoff)))

/-- Result of one transmission attempt: the source's `syncFn` either
resolves (success) or throws (failure, carrying an error value). -/
abbrev TransmitFn := String → Except String Unit

/-- The `for (const entry of pending)` loop of `syncAllPending`: transmit
each snapshot entry in order; on success mark it synced, on a thrown error
mark it failed; either way continue with the next entry, accumulating the
`synced` and `failed` counters. -/
def syncLoop (f : TransmitFn) : List Entry → Store → Store × Nat × Nat
  | [], s => (s, 0, 0)
  | e :: rest, s =>
    match f e.data with
    | Except.ok _ =>
      let r := syncLoop f rest (markConsultSynced e.id s)
      (r.1, r.2.1 + 1, r.2.2)
    | Except.error _ =>
      let r := syncLoop f rest (markConsultFailed e.id s)
      (r.1, r.2.1, r.2.2 + 1)

/-- `syncAllPending`: snapshot the pending queue once, drain it through
`syncLoop`, then run `cleanupSyncedConsults` unconditionally, returning the
updated store together with the `\x7b synced, failed \x7d` counters. -/
def syncAllPending (f : TransmitFn) (now : Nat) (s : Store) : Store × Nat × Nat :=
  let pending := getPendingConsults s
  let r := syncLoop f pending s
  (cleanupSyncedConsults now r.1, r.2.1, r.2.2)

/-- Queue state threaded through `saveOfflineConsult`: the table plus
Dexie's next auto-increment key (which starts at 1). -/
structure QState where
  entries : Store
  nextId : Nat
deriving Repr

/-- The empty database: no rows, first auto-increment key 1. -/
def initQState : QState := ⟨[], 1⟩

/-- `saveOfflineConsult`: builds `clientId` from the current time and a
random suffix (both taken as inputs here), stamps `createdAt`, sets
`status: 'pending'`, `attempts: 0`, and appends the row under a fresh
auto-increment key, returning `\x7b id, clientId \x7d`. -/
def saveOfflineConsult (payload : String) (t : Nat) (rnd : String) (q : QState) :
    QState × Nat × String :=
  let clientId := "offline-" ++ toString t ++ "-" ++ rnd
  let entry : Entry :=
    { id := q.nextId, clientId := clientId, data := payload,
      status := Status.pending, createdAt := t, attempts := 0 }
  (⟨q.entries ++ [entry], q.nextId + 1⟩, q.nextId, clientId)

/-- An operation on the offline queue: an enqueue (with its wall-clock
time and random suffix) or a mark-synced. -/
inductive QOp
  | enqueue (payload : String) (t : Nat) (rnd : String)
  | msync (i : Nat)
deriving Repr

/-- Apply one queue operation. -/
def applyOp (q : QState) (op : QOp) : QState :=
  match op with
  | QOp.enqueue p t r => (saveOfflineConsult p t r q).1
  | QOp.msync i => ⟨markConsultSynced i q.entries, q.nextId⟩

/-- Run a sequence of queue operations from a starting state. -/
def runOps (ops : List QOp) (q : QState) : QState := ops.foldl applyOp q

/-- The wall-clock time of an operation, when it is an enqueue. -/
def opTime : QOp → Option Nat
  | QOp.enqueue _ t _ => some t
  | QOp.msync _ => none

/-- The enqueue timestamps of an operation sequence, in order. -/
def enqueueTimes (ops : List QOp) : List Nat := ops.filterMap opTime

/-- Whether an operation is an enqueue. -/
def isEnqueue : QOp → Bool
  | QOp.enqueue _ _ _ => true
  | QOp.msync _ => false

/-- Number of enqueue operations in a sequence. -/
def countEnqueues (ops : List QOp) : Nat := (ops.filter isEnqueue).length

/-- Number of rows currently in status `synced`. -/
def countSynced (s : Store) : Nat :=
  (s.filter (fun e => decide (e.status = Status.synced))).length

/-- Whether a transmission of this entry's payload would succeed. -/
def transmitOk (f : TransmitFn) (e : Entry) : Bool :=
  match f e.data with
  | Except.ok _ => true
  | Except.error _ => false

/-- One day in milliseconds. -/
def dayMs : Nat := 24 * 60 * 60 * 1000

/-- A fresh pending row used in concrete scenarios. -/
def demoEntry (i : Nat) (d : String) : Entry :=
  { id := i, clientId := "c" ++ toString i, data := d,
    status := Status.pending, createdAt := 0, attempts := 0 }

/-- Three pending submissions, payloads "a", "b", "c". -/
def demoStore3 : Store := [demoEntry 1 "a", demoEntry 2 "b", demoEntry 3 "c"]

/-- A transmit function that throws exactly on payload "b". -/
def demoTransmit : TransmitFn :=
  fun d => if d = "b" then Except.error "network" else Except.ok ()

/-- A row already in status 'failed'. -/
def failedDemoEntry : Entry :=
  { id := 1, clientId := "f", data := "x", status := Status.failed,
    createdAt := 0, attempts := 1 }

/-- A synced row created 8 days before the sweep time `10 * dayMs`. -/
def oldSyncedEntry : Entry :=
  { id := 1, clientId := "o", data := "x", status := Status.synced,
    createdAt := 2 * dayMs, attempts := 0 }

/-- A synced row created 6 days before the sweep time `10 * dayMs`. -/
def recentSyncedEntry : Entry :=
  { id := 2, clientId := "r", data := "y", status := Status.synced,
    createdAt := 4 * dayMs, attempts := 0 }

/-- A failed row far older than any retention window. -/
def failedOldEntry : Entry :=
  { id := 3, clientId := "g", data := "z", status := Status.failed,
    createdAt := 0, attempts := 5 }

/-- Marking synced keeps every row with a given id non-pending. -/
theorem markSynced_preserves_nonpending (i k : Nat) (s : Store)
    (h : ∀ e ∈ s, e.id = k → e.status ≠ Status.pending) :
    ∀ e ∈ markConsultSynced i s, e.id = k → e.status ≠ Status.pending := by
  intro e he hk
  simp only [markConsultSynced, List.mem_map] at he
  obtain ⟨a, ha, rfl⟩ := he
  by_cases hai : a.id = i
  · simp [hai]
  · simp only [if_neg hai] at hk ⊢
    exact h a ha hk

/-- Marking failed keeps every row with a given id non-pending. -/
theorem markFailed_preserves_nonpending (i k : Nat) (s : Store)
    (h : ∀ e ∈ s, e.id = k → e.status ≠ Status.pending) :
    ∀ e ∈ markConsultFailed i s, e.id = k → e.status ≠ Status.pending := by
  intro e he hk
  simp only [markConsultFailed, List.mem_map] at he
  obtain ⟨a, ha, rfl⟩ := he
  by_cases hai : a.id = i
  · simp [hai]
  · simp only [if_neg hai] at hk ⊢
    exact h a ha hk

/-- After marking synced, every row with the marked id is non-pending. -/
theorem markSynced_marks (i : Nat) (s : Store) :
    ∀ e ∈ markConsultSynced i s, e.id = i → e.status ≠ Status.pending := by
  intro e he hk
  simp only [markConsultSynced, List.mem_map] at he
  obtain ⟨a, ha, rfl⟩ := he
  by_cases hai : a.id = i
  · simp [hai]
  · simp only [if_neg hai] at hk
    exact absurd hk hai

/-- After marking failed, every row with the marked id is non-pending. -/
theorem markFailed_marks (i : Nat) (s : Store) :
    ∀ e ∈ markConsultFailed i s, e.id = i → e.status ≠ Status.pending := by
  intro e he hk
  simp only [markConsultFailed, List.mem_map] at he
  obtain ⟨a, ha, rfl⟩ := he
  by_cases hai : a.id = i
  · simp [hai]
  · simp only [if_neg hai] at hk
    exact absurd hk hai

/-- The sync loop never turns a non-pending id back into pending. -/
theorem syncLoop_preserves_nonpending (f : TransmitFn) (k : Nat) :
    ∀ (es : List Entry) (s : Store),
      (∀ e ∈ s, e.id = k → e.status ≠ Status.pending) →
      ∀ e ∈ (syncLoop f es s).1, e.id = k → e.status ≠ Status.pending := by
  intro es
  induction es with
  | nil => intro s h; simpa [syncLoop] using h
  | cons e rest ih =>
    intro s h
    simp only [syncLoop]
    cases hfe : f e.data with
    | ok _ => exact ih _ (markSynced_preserves_nonpending e.id k s h)
    | error _ => exact ih _ (markFailed_preserves_nonpending e.id k s h)

/-- Every id processed by the sync loop ends the loop non-pending. -/
theorem syncLoop_marks_all (f : TransmitFn) :
    ∀ (es : List Entry) (s : Store) (k : Nat), k ∈ es.map Entry.id →
      ∀ e ∈ (syncLoop f es s).1, e.id = k → e.status ≠ Status.pending := by
  intro es
  induction es with
  | nil => intro s k hk; simp at hk
  | cons e rest ih =>
    intro s k hk
    simp only [List.map_cons, List.mem_cons] at hk
    rcases hk with hk | hk
    · subst hk
      simp only [syncLoop]
      cases hfe : f e.data with
      | ok _ =>
        exact syncLoop_preserves_nonpending f e.id rest _ (markSynced_marks e.id s)
      | error _ =>
        exact syncLoop_preserves_nonpending f e.id rest _ (markFailed_marks e.id s)
    · simp only [syncLoop]
      cases hfe : f e.data with
      | ok _ => exact ih _ k hk
      | error _ => exact ih _ k hk

/-- The loop's counters are the numbers of succeeding and throwing
transmissions over the snapshot. -/
theorem syncLoop_counts (f : TransmitFn) :
    ∀ (es : List Entry) (s : Store),
      (syncLoop f es s).2.1 = (es.filter (transmitOk f)).length ∧
      (syncLoop f es s).2.2 = (es.filter (fun e => !transmitOk f e)).length := by
  intro es
  induction es with
  | nil => intro s; exact ⟨rfl, rfl⟩
  | cons e rest ih =>
    intro s
    cases hfe : f e.data with
    | ok u =>
      have ht : transmitOk f e = true := by simp [transmitOk, hfe]
      have h1 := ih (markConsultSynced e.id s)
      simp [syncLoop, hfe, List.filter_cons, ht, h1.1, h1.2]
    | error u =>
      have ht : transmitOk f e = false := by simp [transmitOk, hfe]
      have h1 := ih (markConsultFailed e.id s)
      simp [syncLoop, hfe, List.filter_cons, ht, h1.1, h1.2]

/-- Splitting a list by a boolean predicate partitions its length. -/
theorem length_filter_partition {α : Type} (p : α → Bool) (l : List α) :
    (l.filter p).length + (l.filter (fun a => !p a)).length = l.length := by
  induction l with
  | nil => rfl
  | cons a l ih =>
    cases hp : p a <;> simp [List.filter_cons, hp, ← ih] <;> omega

/-- The retention sweep only removes rows, never adds or edits them. -/
theorem cleanup_subset (now : Nat) (s : Store) :
    ∀ e ∈ cleanupSyncedConsults now s, e ∈ s := by
  intro e he
  exact (List.mem_filter.mp he).1

/-- C1: a reconciliation pass attempts every snapshot entry even when
earlier entries fail — the counters are exactly the succeeding and
throwing transmissions over the whole snapshot, and every snapshot id is
non-pending afterwards; concretely, for three pending submissions where
only the second transmission throws, the pass returns synced = 2,
failed = 1, and no entry of the resulting store is still pending. -/
theorem syncAllPending_partial_failure :
    (∀ (f : TransmitFn) (now : Nat) (s : Store),
        (syncAllPending f now s).2.1
            = ((getPendingConsults s).filter (transmitOk f)).length ∧
        (syncAllPending f now s).2.2
            = ((getPendingConsults s).filter (fun e => !transmitOk f e)).length ∧
        (∀ e ∈ (syncAllPending f now s).1,
            e.id ∈ (getPendingConsults s).map Entry.id → e.status ≠ Status.pending)) ∧
    ((syncAllPending demoTransmit 0 demoStore3).2 = (2, 1) ∧
      ∀ e ∈ (syncAllPending demoTransmit 0 demoStore3).1, e.status ≠ Status.pending) := by
  constructor
  · intro f now s
    refine ⟨(syncLoop_counts f _ s).1, (syncLoop_counts f _ s).2, ?_⟩
    intro e he hk
    have he' : e ∈ (syncLoop f (getPendingConsults s) s).1 := cleanup_subset now _ e he
    exact syncLoop_marks_all f (getPendingConsults s) s e.id hk e he' rfl
  · exact ⟨by decide, by decide⟩

/-- C1 witness: the general statement instantiated at the concrete
three-entry scenario, for the first entry after the pass. -/
theorem syncAllPending_partial_failure_witness :
    ({ id := 1, clientId := "c1", data := "a", status := Status.synced,
        createdAt := 0, attempts := 0 } : Entry).status ≠ Status.pending :=
  (syncAllPending_partial_failure.1 demoTransmit 0 demoStore3).2.2 _ (by decide) (by decide)

/-- C10: the counters returned by a reconciliation pass partition the
snapshot taken at its start: synced + failed equals the number of pending
entries at the start of the pass. -/
theorem syncAllPending_counters_partition (f : TransmitFn) (now : Nat) (s : Store) :
    (syncAllPending f now s).2.1 + (syncAllPending f now s).2.2
      = (getPendingConsults s).length := by
  have h := syncLoop_counts f (getPendingConsults s) s
  simp only [syncAllPending, h.1, h.2]
  exact length_filter_partition (transmitOk f) (getPendingConsults s)

/-- C7: marking a submission synced is idempotent — updating the same id
twice yields the same store as updating it once. -/
theorem markConsultSynced_idempotent (i : Nat) (s : Store) :
    markConsultSynced i (markConsultSynced i s) = markConsultSynced i s := by
  unfold markConsultSynced
  rw [List.map_map]
  refine List.map_congr_left ?_
  intro e _
  by_cases h : e.id = i
  · simp [Function.comp, h]
  · simp [Function.comp, h]

/-- C2 counterexample: a submission in status 'failed' is not selected by
the next reconciliation pass — the retry-selection read returns nothing
for a store holding one failed entry, and a full pass with an
always-succeeding transmit function transmits nothing and leaves the
entry failed with counters 0/0. -/
theorem failed_entry_not_selected_cex :
    getPendingConsults [failedDemoEntry] = [] ∧
    syncAllPending (fun _ => Except.ok ()) 0 [failedDemoEntry]
      = ([failedDemoEntry], 0, 0) := by
  exact ⟨rfl, rfl⟩

/-- C2 amended: the retry-selection read selects only rows whose status is
'pending'; a 'failed' row is never selected, so a failed submission is not
retried by a later pass unless something else resets it to 'pending'. -/
theorem failed_entry_excluded_from_selection (s : Store) (e : Entry)
    (h : e.status = Status.failed) :
    e ∉ getPendingConsults s ∧
    ∀ x ∈ getPendingConsults s, x.status = Status.pending := by
  constructor
  · intro hmem
    have := (List.mem_filter.mp hmem).2
    simp only [decide_eq_true_eq] at this
    rw [h] at this
    cases this
  · intro x hx
    have := (List.mem_filter.mp hx).2
    simpa using this

/-- C2 amended witness: instantiated at the concrete failed entry. -/
theorem failed_entry_excluded_witness :
    failedDemoEntry ∉ getPendingConsults [failedDemoEntry] :=
  (failed_entry_excluded_from_selection [failedDemoEntry] failedDemoEntry rfl).1

/-- C4: the retention sweep removes exactly the 'synced' rows strictly
older than the 7-day cutoff and never removes a 'pending' or 'failed' row
regardless of age; concretely, at sweep time 10 days a synced row created
8 days earlier is removed and one created 6 days earlier is retained. -/
theorem cleanupSynced_exactly_old_synced :
    (∀ (now : Nat) (s : Store) (e : Entry),
        e ∈ cleanupSyncedConsults now s ↔
          e ∈ s ∧ ¬(e.status = Status.synced ∧ e.createdAt < now - retentionMs)) ∧
    (∀ (now : Nat) (s : Store) (e : Entry),
        e ∈ s → e.status ≠ Status.synced → e ∈ cleanupSyncedConsults now s) ∧
    cleanupSyncedConsults (10 * dayMs) [oldSyncedEntry, recentSyncedEntry]
      = [recentSyncedEntry] := by
  refine ⟨?_, ?_, by decide⟩
  · intro now s e
    simp only [cleanupSyncedConsults, List.mem_filter, Bool.not_eq_true', Bool.and_eq_false_iff,
      decide_eq_false_iff_not, decide_eq_true_eq, not_and, not_lt]
    constructor
    · rintro ⟨hmem, h⟩
      refine ⟨hmem, ?_⟩
      intro hs
      rcases h with h | h
      · exact absurd hs h
      · exact h
    · rintro ⟨hmem, h⟩
      refine ⟨hmem, ?_⟩
      by_cases hs : e.status = Status.synced
      · exact Or.inr (h hs)
      · exact Or.inl hs
  · intro now s e he hs
    simp [cleanupSyncedConsults, List.mem_filter, he, hs]

/-- C4 witness: a failed row far older than the window survives a sweep. -/
theorem cleanupSynced_witness :
    failedOldEntry ∈ cleanupSyncedConsults (100 * dayMs) [failedOldEntry] :=
  cleanupSynced_exactly_old_synced.2.1 (100 * dayMs) [failedOldEntry] failedOldEntry
    (by decide) (by decide)

/-- Invariant of queue states reachable by the modelled operations:
row ids are below the next auto-increment key and strictly increasing in
table order, every status is pending or synced (the operations of C3 never
mark failed), and creation times are nondecreasing in table order. -/
structure QInv (q : QState) : Prop where
  idsLt : ∀ e ∈ q.entries, e.id < q.nextId
  idsSorted : q.entries.Pairwise (fun a b => a.id < b.id)
  statusOk : ∀ e ∈ q.entries, e.status = Status.pending ∨ e.status = Status.synced
  timesSorted : q.entries.Pairwise (fun a b => a.createdAt ≤ b.createdAt)

/-- The per-row function of `markConsultSynced` preserves the id. -/
theorem markSynced_fun_id (i : Nat) (a : Entry) :
    (if a.id = i then { a with status := Status.synced } else a).id = a.id := by
  by_cases h : a.id = i <;> simp [h]

/-- The per-row function of `markConsultSynced` preserves `createdAt`. -/
theorem markSynced_fun_createdAt (i : Nat) (a : Entry) :
    (if a.id = i then { a with status := Status.synced } else a).createdAt = a.createdAt := by
  by_cases h : a.id = i <;> simp [h]

/-- The per-row function of `markConsultSynced` yields status synced or
leaves the status unchanged. -/
theorem markSynced_fun_status (i : Nat) (a : Entry) :
    (if a.id = i then { a with status := Status.synced } else a).status = Status.synced ∨
    (if a.id = i then { a with status := Status.synced } else a).status = a.status := by
  by_cases h : a.id = i <;> simp [h]

/-- Marking a row synced preserves the queue invariant. -/
theorem markSynced_inv (i : Nat) (q : QState) (hq : QInv q) :
    QInv ⟨markConsultSynced i q.entries, q.nextId⟩ := by
  constructor
  · intro e he
    simp only [markConsultSynced, List.mem_map] at he
    obtain ⟨a, ha, rfl⟩ := he
    rw [markSynced_fun_id]
    exact hq.idsLt a ha
  · rw [markConsultSynced, List.pairwise_map]
    refine hq.idsSorted.imp ?_
    intro a b hab
    rw [markSynced_fun_id, markSynced_fun_id]
    exact hab
  · intro e he
    simp only [markConsultSynced, List.mem_map] at he
    obtain ⟨a, ha, rfl⟩ := he
    rcases markSynced_fun_status i a with h | h
    · exact Or.inr h
    · rw [h]; exact hq.statusOk a ha
  · rw [markConsultSynced, List.pairwise_map]
    refine hq.timesSorted.imp ?_
    intro a b hab
    rw [markSynced_fun_createdAt, markSynced_fun_createdAt]
    exact hab

/-- Marking a row synced preserves every row's creation time. -/
theorem markSynced_createdAt_mem (i : Nat) (s : Store) :
    ∀ e ∈ markConsultSynced i s, ∃ a ∈ s, e.createdAt = a.createdAt := by
  intro e he
  simp only [markConsultSynced, List.mem_map] at he
  obtain ⟨a, ha, rfl⟩ := he
  exact ⟨a, ha, markSynced_fun_createdAt i a⟩

/-- Running the modelled operations preserves the queue invariant, keeps
all existing creation times below all upcoming enqueue times, and grows
the table by exactly the number of enqueues. -/
theorem runOps_inv :
    ∀ (ops : List QOp) (q : QState), QInv q →
      (∀ e ∈ q.entries, ∀ t ∈ enqueueTimes ops, e.createdAt ≤ t) →
      (enqueueTimes ops).Pairwise (fun a b => a ≤ b) →
      QInv (runOps ops q) ∧
        (runOps ops q).entries.length = q.entries.length + countEnqueues ops := by
  intro ops
  induction ops with
  | nil =>
    intro q hq _ _
    exact ⟨hq, by simp [runOps, countEnqueues]⟩
  | cons op rest ih =>
    intro q hq hbound hmono
    have hrun : runOps (op :: rest) q = runOps rest (applyOp q op) := rfl
    cases op with
    | enqueue p t r =>
      have htimes : enqueueTimes (QOp.enqueue p t r :: rest) = t :: enqueueTimes rest := rfl
      rw [htimes] at hbound hmono
      have hmono' := (List.pairwise_cons.mp hmono).2
      have hthead := (List.pairwise_cons.mp hmono).1
      set n : Entry :=
        { id := q.nextId, clientId := "offline-" ++ toString t ++ "-" ++ r, data := p,
          status := Status.pending, createdAt := t, attempts := 0 } with hn
      have happ : applyOp q (QOp.enqueue p t r) = ⟨q.entries ++ [n], q.nextId + 1⟩ := rfl
      have hq' : QInv ⟨q.entries ++ [n], q.nextId + 1⟩ := by
        constructor
        · intro e he
          rcases List.mem_append.mp he with he | he
          · exact Nat.lt_succ_of_lt (hq.idsLt e he)
          · rcases List.mem_singleton.mp he with rfl
            exact Nat.lt_succ_self _
        · rw [List.pairwise_append]
          refine ⟨hq.idsSorted, List.pairwise_singleton _ _, ?_⟩
          intro a ha b hb
          rcases List.mem_singleton.mp hb with rfl
          exact hq.idsLt a ha
        · intro e he
          rcases List.mem_append.mp he with he | he
          · exact hq.statusOk e he
          · rcases List.mem_singleton.mp he with rfl
            exact Or.inl rfl
        · rw [List.pairwise_append]
          refine ⟨hq.timesSorted, List.pairwise_singleton _ _, ?_⟩
          intro a ha b hb
          rcases List.mem_singleton.mp hb with rfl
          exact hbound a ha t (List.mem_cons_self _ _)
      have hbound' : ∀ e ∈ (q.entries ++ [n]), ∀ t' ∈ enqueueTimes rest, e.createdAt ≤ t' := by
        intro e he t' ht'
        rcases List.mem_append.mp he with he | he
        · exact hbound e he t' (List.mem_cons_of_mem _ ht')
        · rcases List.mem_singleton.mp he with rfl
          exact hthead t' ht'
      have hres := ih ⟨q.entries ++ [n], q.nextId + 1⟩ hq' hbound' hmono'
      rw [hrun, happ]
      refine ⟨hres.1, ?_⟩
      rw [hres.2]
      simp [countEnqueues, List.filter_cons, isEnqueue]
      omega
    | msync i =>
      have htimes : enqueueTimes (QOp.msync i :: rest) = enqueueTimes rest := rfl
      rw [htimes] at hbound hmono
      have happ : applyOp q (QOp.msync i) = ⟨markConsultSynced i q.entries, q.nextId⟩ := rfl
      have hq' := markSynced_inv i q hq
      have hbound' : ∀ e ∈ markConsultSynced i q.entries,
          ∀ t' ∈ enqueueTimes rest, e.createdAt ≤ t' := by
        intro e he t' ht'
        obtain ⟨a, ha, hca⟩ := markSynced_createdAt_mem i q.entries e he
        rw [hca]
        exact hbound a ha t' ht'
      have hres := ih ⟨markConsultSynced i q.entries, q.nextId⟩ hq' hbound' hmono
      rw [hrun, happ]
      refine ⟨hres.1, ?_⟩
      rw [hres.2]
      simp [markConsultSynced, countEnqueues, List.filter_cons, isEnqueue]

/-- On a table where every status is pending or synced, the number of
pending rows is the total minus the number of synced rows. -/
theorem pending_length_eq (l : Store)
    (h : ∀ e ∈ l, e.status = Status.pending ∨ e.status = Status.synced) :
    (l.filter (fun e => decide (e.status = Status.pending))).length
      = l.length - (l.filter (fun e => decide (e.status = Status.synced))).length := by
  induction l with
  | nil => rfl
  | cons a l ih =>
    have ha := h a (List.mem_cons_self a l)
    have ih' := ih (fun e he => h e (List.mem_cons_of_mem a he))
    have hle := List.length_filter_le (fun e => decide (e.status = Status.synced)) l
    rcases ha with ha | ha
    · simp only [List.filter_cons, ha]
      simp only [decide_eq_true_eq, reduceIte, List.length_cons, ih']
      simp
      omega
    · simp only [List.filter_cons, ha]
      simp only [decide_eq_true_eq, reduceIte, List.length_cons, ih']
      simp
      omega

/-- The empty database satisfies the queue invariant. -/
theorem initQState_inv : QInv initQState := by
  constructor <;> simp [initQState]

/-- C3: after any sequence of enqueue and mark-synced operations with
nondecreasing enqueue times, the pending read returns exactly the rows in
status 'pending', in creation order (ids strictly increasing, `createdAt`
nondecreasing, oldest first), and its length is the number of enqueues
minus the number of rows that have reached 'synced'. -/
theorem listPending_fifo (ops : List QOp)
    (hmono : (enqueueTimes ops).Pairwise (fun a b => a ≤ b)) :
    (∀ e ∈ getPendingConsults (runOps ops initQState).entries,
        e.status = Status.pending) ∧
    (∀ e ∈ (runOps ops initQState).entries, e.status = Status.pending →
        e ∈ getPendingConsults (runOps ops initQState).entries) ∧
    (getPendingConsults (runOps ops initQState).entries).Pairwise
      (fun a b => a.id < b.id) ∧
    (getPendingConsults (runOps ops initQState).entries).Pairwise
      (fun a b => a.createdAt ≤ b.createdAt) ∧
    (getPendingConsults (runOps ops initQState).entries).length
      = countEnqueues ops - countSynced (runOps ops initQState).entries := by
  obtain ⟨hinv, hlen⟩ := runOps_inv ops initQState initQState_inv
    (by intro e he; simp [initQState] at he) hmono
  refine ⟨?_, ?_, ?_, ?_, ?_⟩
  · intro e he
    have := (List.mem_filter.mp he).2
    simpa using this
  · intro e he hp
    rw [getPendingConsults, List.mem_filter]
    exact ⟨he, by simp [hp]⟩
  · exact hinv.idsSorted.filter _
  · exact hinv.timesSorted.filter _
  · rw [getPendingConsults, pending_length_eq _ hinv.statusOk]
    rw [hlen]
    simp [initQState, countSynced]

/-- C3 witness: two enqueues at times 1 and 2, then marking the first
synced, leaves exactly one pending row. -/
theorem listPending_fifo_witness :
    (getPendingConsults
        (runOps [QOp.enqueue "a" 1 "r1", QOp.enqueue "b" 2 "r2", QOp.msync 1]
          initQState).entries).length
      = countEnqueues [QOp.enqueue "a" 1 "r1", QOp.enqueue "b" 2 "r2", QOp.msync 1]
          - countSynced (runOps [QOp.enqueue "a" 1 "r1", QOp.enqueue "b" 2 "r2", QOp.msync 1]
              initQState).entries :=
  (listPending_fifo [QOp.enqueue "a" 1 "r1", QOp.enqueue "b" 2 "r2", QOp.msync 1]
    (by simp [enqueueTimes, opTime, List.pairwise_cons])).2.2.2.2

/-!
Service-worker model (`sw.js`): cache namespaces versioned by the build
tag, the activation sweep, request classification by URL shape, and the
three caching-strategy functions. A network `fetch` outcome is an
`Except`: `ok` when the promise resolves with a response (including HTTP
error statuses, which have `ok := false`), `error` when it rejects. -/

/-- An HTTP response: `ok` mirrors `Response.ok` (status in 200-299);
the source's offline JSON body is summarised by its `detail` text. -/
structure Response where
  ok : Bool
  status : Nat
  body : String
deriving DecidableEq, Repr

/-- One cache namespace: a mapping from request URL to stored response. -/
abbrev Cache := List (String × Response)

/-- `cache.match(request)` within one namespace. -/
def cacheMatchNs (c : Cache) (url : String) : Option Response :=
  (c.find? (fun p => p.1 = url)).map (fun p => p.2)

/-- `cache.put(request, response)`: store under the request identity,
replacing any previous entry for the same URL. -/
def cachePut (c : Cache) (url : String) (r : Response) : Cache :=
  (url, r) :: c.filter (fun p => ¬(p.1 = url))

/-- `const CACHE_VERSION = 'v6'`. -/
def CACHE_VERSION : String := "v6"

/-- The static-shell namespace name for the current build version. -/
def STATIC_CACHE : String := "ps-consult-static-" ++ CACHE_VERSION

/-- The api-responses namespace name for the current build version. -/
def API_CACHE : String := "ps-consult-api-" ++ CACHE_VERSION

/-- The images namespace name for the current build version. -/
def IMAGE_CACHE : String := "ps-consult-images-" ++ CACHE_VERSION

/-- The `allowedCaches` list of the activate listener. -/
def allowedCaches : List String := [STATIC_CACHE, API_CACHE, IMAGE_CACHE]

/-- The activate listener: enumerate all cache names and delete every one
not in `allowedCaches`; the retained names are the result. -/
def activateSweep (keys : List String) : List String :=
  keys.filter (fun k => allowedCaches.contains k)

/-- The three open cache namespaces of one service-worker instance. -/
structure SWState where
  staticCache : Cache
  apiCache : Cache
  imageCache : Cache
deriving DecidableEq, Repr

/-- Which namespace a strategy was asked to write into. -/
inductive CacheName
  | staticName
  | apiName
  | imagesName
deriving DecidableEq, Repr

/-- Read a namespace of the service-worker state. -/
def getNs (st : SWState) : CacheName → Cache
  | CacheName.staticName => st.staticCache
  | CacheName.apiName => st.apiCache
  | CacheName.imagesName => st.imageCache

/-- Replace a namespace of the service-worker state. -/
def setNs (st : SWState) : CacheName → Cache → SWState
  | CacheName.staticName, c => { st with staticCache := c }
  | CacheName.apiName, c => { st with apiCache := c }
  | CacheName.imagesName, c => { st with imageCache := c }

/-- `caches.match(request)`: search every namespace. -/
def globalMatch (st : SWState) (url : String) : Option Response :=
  match cacheMatchNs st.staticCache url with
  | some r => some r
  | none =>
    match cacheMatchNs st.apiCache url with
    | some r => some r
    | none => cacheMatchNs st.imageCache url

/-- The synthesized offline-indicator response of `networkFirst`: HTTP
503 with the fixed JSON detail text. -/
def offlineJson : Response :=
  { ok := false, status := 503, body := "You are offline. Showing cached data." }

/-- The synthesized empty offline placeholder of `cacheFirst`. -/
def offlinePlaceholder : Response :=
  { ok := false, status := 503, body := "" }

/-- `networkFirst(request, cacheName)`: try the network; when the fetch
resolves, store the response in the given namespace if `response.ok` and
return it; when the fetch rejects, return a previously cached response
from any namespace, or the synthesized offline-indicator response. -/
def networkFirst (url : String) (fetchResult : Except String Response)
    (cn : CacheName) (st : SWState) : Response × SWState :=
  match fetchResult with
  | Except.ok r =>
    (r, if r.ok then setNs st cn (cachePut (getNs st cn) url r) else st)
  | Except.error _ =>
    match globalMatch st url with
    | some c => (c, st)
    | none => (offlineJson, st)

/-- `cacheFirst(request, cacheName)`: return a cached response from any
namespace when present; otherwise fetch, storing an ok response in the
given namespace; a rejected fetch yields the empty offline placeholder. -/
def cacheFirst (url : String) (fetchResult : Except String Response)
    (cn : CacheName) (st : SWState) : Response × SWState :=
  match globalMatch st url with
  | some c => (c, st)
  | none =>
    match fetchResult with
    | Except.ok r =>
      (r, if r.ok then setNs st cn (cachePut (getNs st cn) url r) else st)
    | Except.error _ => (offlinePlaceholder, st)

/-- `staleWhileRevalidate(request, cacheName)`: read the named namespace;
the revalidating fetch stores an ok response and converts a rejection into
the cached value (the `.catch(() => cached)`). With a cache hit the cached
response is returned at once; otherwise the caller awaits the fetch
promise, so a rejected fetch resolves with the absent cached value —
`Except.ok none` — rather than propagating the rejection. -/
def staleWhileRevalidate (url : String) (fetchResult : Except String Response)
    (c : Cache) : Except String (Option Response) × Cache :=
  let cached := cacheMatchNs c url
  let c' := match fetchResult with
    | Except.ok r => if r.ok then cachePut c url r else c
    | Except.error _ => c
  match cached with
  | some r => (Except.ok (some r), c')
  | none =>
    match fetchResult with
    | Except.ok r => (Except.ok (some r), c')
    | Except.error _ => (Except.ok cached, c')

/-- The strategy the fetch listener selects for a request. -/
inductive Decision
  | passThrough
  | useNetworkFirst (cacheName : String)
  | useCacheFirst (cacheName : String)
  | useSWR (cacheName : String)
  | navigationFallback
deriving DecidableEq, Repr

/-- The image-extension set of the fetch listener's second test. -/
def imageExts : List String := ["png", "jpg", "jpeg", "svg", "gif", "webp", "ico"]

/-- The build-asset extension set of the fetch listener's third test. -/
def staticExts : List String := ["js", "css", "woff", "woff2", "ttf", "eot"]

/-- `s.startsWith(pre)`, computed on the character lists so that it
evaluates by kernel reduction. -/
def strStartsWith (s pre : String) : Bool := pre.toList.isPrefixOf s.toList

/-- `s.endsWith(suf)`, computed on the character lists. -/
def strEndsWith (s suf : String) : Bool := suf.toList.isSuffixOf s.toList

/-- Case-insensitive extension test, mirroring the source's regexes
`\.(ext1|ext2|...)$/i`. -/
def hasExt (exts : List String) (path : String) : Bool :=
  exts.any (fun e => strEndsWith path.toLower ("." ++ e))

/-- The fetch listener's classification, first match wins: same-origin
GET only; API prefix, image extensions, build-asset extensions,
navigation, then default cache-first against the static shell. -/
def classify (sameOrigin : Bool) (method : String) (path : String)
    (isNavigate : Bool) : Decision :=
  if ¬sameOrigin then Decision.passThrough
  else if ¬(method = "GET") then Decision.passThrough
  else if strStartsWith path "/api/" then Decision.useNetworkFirst API_CACHE
  else if hasExt imageExts path then Decision.useCacheFirst IMAGE_CACHE
  else if hasExt staticExts path then Decision.useSWR STATIC_CACHE
  else if isNavigate then Decision.navigationFallback
  else Decision.useCacheFirst STATIC_CACHE

/-- A service worker with all three namespaces empty. -/
def emptySW : SWState := ⟨[], [], []⟩

/-- A resolved fetch whose HTTP status is an error (`ok = false`). -/
def serverErrorResp : Response := { ok := false, status := 500, body := "server error" }

/-- A stored response used in concrete scenarios. -/
def demoResp : Response := { ok := true, status := 200, body := "payload" }

/-- Storing under a URL makes that URL hit in the namespace. -/
theorem cacheMatchNs_put (c : Cache) (url : String) (r : Response) :
    cacheMatchNs (cachePut c url r) url = some r := by
  simp [cacheMatchNs, cachePut]

/-- C5 counterexample: with no cached entry and a rejecting fetch,
stale-while-revalidate resolves with no response (`Except.ok none`, the
swallowed `undefined`) instead of propagating the underlying fetch error,
contradicting the claim at this concrete input. -/
theorem swr_error_swallowed_cex :
    (staleWhileRevalidate "/assets/app.js" (Except.error "netfail") ([] : Cache)).1
      = Except.ok none ∧
    (staleWhileRevalidate "/assets/app.js" (Except.error "netfail") ([] : Cache)).1
      ≠ Except.error "netfail" := by
  refine ⟨rfl, ?_⟩
  intro h
  rw [show (staleWhileRevalidate "/assets/app.js" (Except.error "netfail") ([] : Cache)).1
      = Except.ok none from rfl] at h
  exact Except.noConfusion h

/-- C5 amended: for a stale-while-revalidate request, a cached entry is
returned whenever present, and a subsequent network failure is then
silent (the cached value is returned and the cache is unchanged); when no
cached entry exists and the network fetch fails, the failure is swallowed
by the revalidation catch: the strategy resolves with no response
(`Except.ok none`, an `undefined` resolution) rather than rejecting with
the underlying fetch error. -/
theorem swr_behavior (url : String) (fr : Except String Response) (c : Cache) :
    (∀ r, cacheMatchNs c url = some r →
        (staleWhileRevalidate url fr c).1 = Except.ok (some r)) ∧
    (∀ r e, cacheMatchNs c url = some r → fr = Except.error e →
        staleWhileRevalidate url fr c = (Except.ok (some r), c)) ∧
    (∀ e, cacheMatchNs c url = none → fr = Except.error e →
        staleWhileRevalidate url fr c = (Except.ok none, c)) := by
  refine ⟨?_, ?_, ?_⟩
  · intro r hc
    cases fr with
    | ok v => simp [staleWhileRevalidate, hc]
    | error e => simp [staleWhileRevalidate, hc]
  · intro r e hc hf
    subst hf
    simp [staleWhileRevalidate, hc]
  · intro e hc hf
    subst hf
    simp [staleWhileRevalidate, hc]

/-- C5 amended witness: a cache hit with a rejecting revalidation fetch
returns the cached response and leaves the cache unchanged. -/
theorem swr_behavior_witness :
    staleWhileRevalidate "/a.js" (Except.error "net") [("/a.js", demoResp)]
      = (Except.ok (some demoResp), [("/a.js", demoResp)]) :=
  (swr_behavior "/a.js" (Except.error "net") [("/a.js", demoResp)]).2.1
    demoResp "net" (by rfl) rfl

/-- C6 counterexample: with the network available but the server replying
a non-ok response (HTTP 500), the network-first strategy returns the
response without storing anything in the api-responses namespace, so the
claim's "returned and stored" fails at this concrete input. -/
theorem networkFirst_nonOk_not_stored_cex :
    (networkFirst "/api/x" (Except.ok serverErrorResp) CacheName.apiName emptySW).1
      = serverErrorResp ∧
    (networkFirst "/api/x" (Except.ok serverErrorResp) CacheName.apiName emptySW).2
      = emptySW := by
  exact ⟨rfl, rfl⟩

/-- C6 amended: a same-origin GET whose path starts with '/api/' is
classified network-first against the api-responses namespace; a resolved
fetch is returned, and stored in the api-responses namespace exactly when
the response is ok (non-ok responses are returned unstored); a rejected
fetch returns the previously cached response when one exists, and
otherwise the synthesized offline-indicator response with fixed status
503 — never an uncaught exception. -/
theorem api_request_network_first (p : String) (hp : strStartsWith p "/api/" = true)
    (nav : Bool) (st : SWState) :
    classify true "GET" p nav = Decision.useNetworkFirst API_CACHE ∧
    (∀ r : Response, (networkFirst p (Except.ok r) CacheName.apiName st).1 = r) ∧
    (∀ r : Response, r.ok = true →
        cacheMatchNs (networkFirst p (Except.ok r) CacheName.apiName st).2.apiCache p
          = some r) ∧
    (∀ r : Response, r.ok = false →
        (networkFirst p (Except.ok r) CacheName.apiName st).2 = st) ∧
    (∀ err c, globalMatch st p = some c →
        networkFirst p (Except.error err) CacheName.apiName st = (c, st)) ∧
    (∀ err, globalMatch st p = none →
        networkFirst p (Except.error err) CacheName.apiName st = (offlineJson, st)) ∧
    offlineJson.status = 503 := by
  refine ⟨?_, ?_, ?_, ?_, ?_, ?_, rfl⟩
  · simp [classify, hp]
  · intro r
    cases hr : r.ok <;> simp [networkFirst, hr]
  · intro r hr
    simp [networkFirst, hr, setNs, getNs, cacheMatchNs_put]
  · intro r hr
    simp [networkFirst, hr]
  · intro err c hc
    simp [networkFirst, hc]
  · intro err hc
    simp [networkFirst, hc]

/-- C6 amended witness: instantiated at '/api/consults' with an ok
response on an empty cache state. -/
theorem api_request_network_first_witness :
    cacheMatchNs
        (networkFirst "/api/consults" (Except.ok demoResp)
          CacheName.apiName emptySW).2.apiCache "/api/consults"
      = some demoResp :=
  (api_request_network_first "/api/consults" (by decide) false emptySW).2.2.1
    demoResp rfl

/-- C9: after the activation sweep, a cache namespace is retained iff it
was present and its name is one of the current build version's expected
names (the static, api and images namespaces of CACHE_VERSION v6); every
prior-version namespace name is absent. -/
theorem activate_sweep_versioning :
    allowedCaches
        = ["ps-consult-static-v6", "ps-consult-api-v6", "ps-consult-images-v6"] ∧
    (∀ (keys : List String) (k : String),
        k ∈ activateSweep keys ↔ (k ∈ keys ∧ k ∈ allowedCaches)) ∧
    (∀ keys : List String,
        "ps-consult-static-v5" ∉ activateSweep keys ∧
        "ps-consult-api-v5" ∉ activateSweep keys ∧
        "ps-consult-images-v5" ∉ activateSweep keys) := by
  have hmem : ∀ (keys : List String) (k : String),
      k ∈ activateSweep keys ↔ (k ∈ keys ∧ k ∈ allowedCaches) := by
    intro keys k
    simp [activateSweep, List.mem_filter, List.contains_eq_any_beq]
  refine ⟨by decide, hmem, ?_⟩
  intro keys
  refine ⟨fun h => ?_, fun h => ?_, fun h => ?_⟩
  · exact absurd ((hmem keys _).mp h).2 (by decide)
  · exact absurd ((hmem keys _).mp h).2 (by decide)
  · exact absurd ((hmem keys _).mp h).2 (by decide)

/-- C9 witness: a current-version namespace among stale ones survives. -/
theorem activate_sweep_witness :
    "ps-consult-api-v6" ∈ activateSweep ["ps-consult-api-v6", "ps-consult-api-v5"] :=
  (activate_sweep_versioning.2.1 ["ps-consult-api-v6", "ps-consult-api-v5"]
    "ps-consult-api-v6").mpr ⟨by decide, by decide⟩

/-!
The `cachedConsults` read cache: `cacheConsults` clears the namespace and
bulk-inserts the server records keyed by server-assigned `id`;
`getCachedConsults` reads them back ordered by the `createdAt` index,
reversed (newest first). An IndexedDB index enumerates rows by
(indexed key, primary key), modelled by an insertion sort on that pair. -/

/-- A server-owned consult record with the fields the cache denormalizes. -/
structure ServerConsult where
  id : Nat
  consult_id : String
  ward : String
  urgency : String
  status : String
  created_at : Nat
deriving DecidableEq, Repr

/-- A row of the `cachedConsults` table: primary key `id` (the server id),
the denormalized listing fields, and the full original record in `data`. -/
structure CachedEntry where
  id : Nat
  consultId : String
  ward : String
  urgency : String
  status : String
  createdAt : Nat
  data : ServerConsult
deriving DecidableEq, Repr

/-- The mapping applied by `cacheConsults` to each server record. -/
def toCached (c : ServerConsult) : CachedEntry :=
  { id := c.id, consultId := c.consult_id, ward := c.ward, urgency := c.urgency,
    status := c.status, createdAt := c.created_at, data := c }

/-- `table.put(record)`: upsert by primary key — replace the row with the
same key when present, append otherwise. -/
def putEntry (t : List CachedEntry) (e : CachedEntry) : List CachedEntry :=
  if t.any (fun x => decide (x.id = e.id)) then
    t.map (fun x => if x.id = e.id then e else x)
  else t ++ [e]

/-- `bulkPut`: put each record in order. -/
def bulkPut (t : List CachedEntry) (es : List CachedEntry) : List CachedEntry :=
  es.foldl putEntry t

/-- `cacheConsults(consults)`: `clear()` the namespace — discarding its
prior contents entirely — then (when the input is non-empty) `bulkPut`
the mapped records. -/
def cacheConsults (consults : List ServerConsult) (_prior : List CachedEntry) :
    List CachedEntry :=
  if consults.isEmpty then ([] : List CachedEntry)
  else bulkPut ([] : List CachedEntry) (consults.map toCached)

/-- The (createdAt, primary key) enumeration order of the index. -/
def entryLe (a b : CachedEntry) : Bool :=
  decide (a.createdAt < b.createdAt) ||
    (decide (a.createdAt = b.createdAt) && decide (a.id ≤ b.id))

/-- Insert into a list sorted by the index order. -/
def insertSortedEntry (e : CachedEntry) : List CachedEntry → List CachedEntry
  | [] => [e]
  | x :: xs => if entryLe e x then e :: x :: xs else x :: insertSortedEntry e xs

/-- `orderBy('createdAt')`: the table enumerated in index order. -/
def sortByCreatedAt (l : List CachedEntry) : List CachedEntry :=
  l.foldr insertSortedEntry []

/-- `getCachedConsults`:
`db.cachedConsults.orderBy('createdAt').reverse().toArray()` mapped back
to the stored `data` records — newest first. -/
def getCachedConsults (t : List CachedEntry) : List ServerConsult :=
  ((sortByCreatedAt t).reverse).map (fun e => e.data)

/-- Putting a record whose key is absent appends it. -/
theorem putEntry_append (t : List CachedEntry) (e : CachedEntry)
    (h : ∀ x ∈ t, x.id ≠ e.id) : putEntry t e = t ++ [e] := by
  have hany : t.any (fun x => decide (x.id = e.id)) = false := by
    simp only [List.any_eq_false, decide_eq_true_eq]
    exact h
  simp [putEntry, hany]

/-- Bulk-putting records with fresh, pairwise-distinct keys appends them. -/
theorem bulkPut_eq_append :
    ∀ (rs : List CachedEntry) (t : List CachedEntry),
      (∀ r ∈ rs, ∀ x ∈ t, x.id ≠ r.id) →
      (rs.map CachedEntry.id).Nodup →
      bulkPut t rs = t ++ rs := by
  intro rs
  induction rs with
  | nil => intro _t _ _; simp [bulkPut]
  | cons r rest ih =>
    intro t hfresh hnodup
    have hstep : putEntry t r = t ++ [r] :=
      putEntry_append t r (fun x hx => hfresh r (List.mem_cons_self r rest) x hx)
    have hsplit : (∀ x ∈ rest, ¬x.id = r.id) ∧ (rest.map CachedEntry.id).Nodup := by
      simpa using hnodup
    have hfresh' : ∀ r' ∈ rest, ∀ x ∈ t ++ [r], x.id ≠ r'.id := by
      intro r' hr' x hx
      rcases List.mem_append.mp hx with hx | hx
      · exact hfresh r' (List.mem_cons_of_mem r hr') x hx
      · rcases List.mem_singleton.mp hx with rfl
        intro hcontra
        exact hsplit.1 r' hr' hcontra.symm
    have hrw : bulkPut t (r :: rest) = bulkPut (putEntry t r) rest := rfl
    rw [hrw, hstep, ih (t ++ [r]) hfresh' hsplit.2]
    simp

/-- Inserting permutes to consing. -/
theorem insertSortedEntry_perm (e : CachedEntry) (l : List CachedEntry) :
    (insertSortedEntry e l).Perm (e :: l) := by
  induction l with
  | nil => exact List.Perm.refl _
  | cons x xs ih =>
    by_cases h : entryLe e x
    · simp [insertSortedEntry, h]
    · rw [insertSortedEntry, if_neg h]
      exact (ih.cons x).trans (List.Perm.swap e x xs)

/-- The index enumeration is a permutation of the table. -/
theorem sortByCreatedAt_perm (l : List CachedEntry) : (sortByCreatedAt l).Perm l := by
  induction l with
  | nil => exact List.Perm.refl _
  | cons x xs ih =>
    have hstep : sortByCreatedAt (x :: xs) = insertSortedEntry x (sortByCreatedAt xs) := rfl
    rw [hstep]
    exact (insertSortedEntry_perm x _).trans (ih.cons x)

/-- The index order, unfolded to arithmetic. -/
theorem entryLe_iff (a b : CachedEntry) :
    entryLe a b = true ↔
      (a.createdAt < b.createdAt ∨ (a.createdAt = b.createdAt ∧ a.id ≤ b.id)) := by
  simp [entryLe]

/-- The index order is total. -/
theorem entryLe_total (a b : CachedEntry) : entryLe a b = true ∨ entryLe b a = true := by
  rw [entryLe_iff, entryLe_iff]
  omega

/-- The index order is transitive. -/
theorem entryLe_trans {a b c : CachedEntry} (h1 : entryLe a b = true)
    (h2 : entryLe b c = true) : entryLe a c = true := by
  rw [entryLe_iff] at h1 h2 ⊢
  omega

/-- Inserting into a sorted list keeps it sorted. -/
theorem insertSortedEntry_pairwise (e : CachedEntry) (l : List CachedEntry)
    (hl : l.Pairwise (fun a b => entryLe a b = true)) :
    (insertSortedEntry e l).Pairwise (fun a b => entryLe a b = true) := by
  induction l with
  | nil => simp [insertSortedEntry]
  | cons x xs ih =>
    rcases List.pairwise_cons.mp hl with ⟨hx, hxs⟩
    by_cases h : entryLe e x = true
    · rw [insertSortedEntry, if_pos h]
      refine List.pairwise_cons.mpr ⟨?_, hl⟩
      intro b hb
      rcases List.mem_cons.mp hb with rfl | hb
      · exact h
      · exact entryLe_trans h (hx b hb)
    · rw [insertSortedEntry, if_neg h]
      refine List.pairwise_cons.mpr ⟨?_, ih hxs⟩
      intro b hb
      have hmem : b ∈ e :: xs := (insertSortedEntry_perm e xs).subset hb
      rcases List.mem_cons.mp hmem with rfl | hb'
      · rcases entryLe_total b x with ht | ht
        · exact absurd ht h
        · exact ht
      · exact hx b hb'

/-- The index enumeration is sorted by the index order. -/
theorem sortByCreatedAt_pairwise (l : List CachedEntry) :
    (sortByCreatedAt l).Pairwise (fun a b => entryLe a b = true) := by
  induction l with
  | nil => simp [sortByCreatedAt]
  | cons x xs ih => exact insertSortedEntry_pairwise x _ ih

/-- C8: replacing the consult cache and immediately reading it back
yields a record set equivalent to the input (a permutation of it),
ordered newest-first by timestamp, independently of the namespace's prior
contents — given the records carry pairwise-distinct server-assigned ids,
as the data model's keying requires. -/
theorem cacheConsults_roundtrip (prior : List CachedEntry) (X : List ServerConsult)
    (hids : (X.map ServerConsult.id).Nodup) :
    (getCachedConsults (cacheConsults X prior)).Perm X ∧
    (getCachedConsults (cacheConsults X prior)).Pairwise
      (fun a b => b.created_at ≤ a.created_at) := by
  have hmapid : (X.map toCached).map CachedEntry.id = X.map ServerConsult.id := by
    rw [List.map_map]
    rfl
  have htable : cacheConsults X prior = X.map toCached := by
    cases X with
    | nil => simp [cacheConsults]
    | cons c cs =>
      rw [cacheConsults, if_neg (by simp)]
      rw [bulkPut_eq_append ((c :: cs).map toCached) [] (by intro r _ x hx; simp at hx)
        (by rw [hmapid]; exact hids)]
      simp
  have hperm : (sortByCreatedAt (X.map toCached)).reverse.Perm (X.map toCached) :=
    (List.reverse_perm _).trans (sortByCreatedAt_perm _)
  have hdata : ((X.map toCached).map (fun e => e.data)) = X := by
    rw [List.map_map]
    exact List.map_id'' (fun c => rfl) X
  constructor
  · rw [getCachedConsults, htable]
    have := hperm.map (fun e => e.data)
    rw [hdata] at this
    exact this
  · rw [getCachedConsults, htable, List.pairwise_map]
    have hsorted := sortByCreatedAt_pairwise (X.map toCached)
    have hrev : (sortByCreatedAt (X.map toCached)).reverse.Pairwise
        (fun a b => entryLe b a = true) := by
      rw [List.pairwise_reverse]
      exact hsorted
    refine hrev.imp_of_mem ?_
    intro a b ha hb hab
    have haX : a ∈ X.map toCached := hperm.subset ha
    have hbX : b ∈ X.map toCached := hperm.subset hb
    obtain ⟨ca, _, rfl⟩ := List.mem_map.mp haX
    obtain ⟨cb, _, rfl⟩ := List.mem_map.mp hbX
    have := (entryLe_iff (toCached cb) (toCached ca)).mp hab
    simp only [toCached] at this ⊢
    omega

/-- Two distinct server records for the concrete round-trip scenario. -/
def demoConsults : List ServerConsult :=
  [{ id := 1, consult_id := "CQ1", ward := "W", urgency := "red",
      status := "open", created_at := 100 },
    { id := 2, consult_id := "CQ2", ward := "V", urgency := "green",
      status := "open", created_at := 50 }]

/-- C8 witness: the round trip on two concrete records with distinct ids. -/
theorem cacheConsults_roundtrip_witness :
    (getCachedConsults (cacheConsults demoConsults [])).Perm demoConsults ∧
    (getCachedConsults (cacheConsults demoConsults [])).Pairwise
      (fun a b => b.created_at ≤ a.created_at) :=
  cacheConsults_roundtrip [] demoConsults (by decide)

end PSConsult
